import Mathlib

/-!
Shallow embedding of the deepstream.io DynamoDB storage connector
(`src/connector.js`). The write-batching engine is modelled as an explicit
state machine: `ConnState` mirrors the connector instance fields `_batch`,
`_batchCallbacks`, `_batchTimeout` plus a log `calls` of the backend
`batchWrite` invocations it has issued. `addToBatch` / `writeBatch` follow
the source methods `_addToBatch` / `_writeBatch` line by line; timer firing
is an external event that invokes `writeBatch` (the `setTimeout` callback).
Pure helpers (`getId`, `getTableName`, `getIndexWithinBatch`) are direct
translations. The value codec (`transform-data`) and the AWS SDK are
external collaborators and stay abstract: payloads are an opaque type and
the codec is a function parameter.
-/

variable {α β γ ε δ : Type}

/-- A pending batch item as built by `set`/`delete`: either a `PutRequest`
whose `Item` carries the `ds_id` key attribute plus the transformed payload,
or a `DeleteRequest` whose `Key` carries only `ds_id`. -/
inductive Item (α : Type) where
  | putRequest (ds_id : String) (payload : α)
  | deleteRequest (ds_id : String)
deriving DecidableEq

/-- The `ds_id` attribute of an item, whichever kind it is. -/
def Item.dsId : Item α → String
  | .putRequest k _ => k
  | .deleteRequest k => k

/-- The match test performed inside `_getIndexWithinBatch`: a `PutRequest`
matches an existing `PutRequest` with the same `ds_id`, a `DeleteRequest`
matches an existing `DeleteRequest` with the same `ds_id`; nothing else
matches. First argument is the incoming item, second the existing one. -/
def itemMatches : Item α → Item α → Bool
  | .putRequest k _, .putRequest k2 _ => k == k2
  | .deleteRequest k, .deleteRequest k2 => k == k2
  | _, _ => false

/-- `_getIndexWithinBatch`: linear scan over one table's request list,
returning the index of the first match (`-1`, here `none`, if absent). -/
def getIndexWithinBatch : Item α → List (Item α) → Option Nat
  | _, [] => none
  | item, x :: xs =>
    if itemMatches item x then some 0
    else (getIndexWithinBatch item xs).map (· + 1)

/-- `_batch.RequestItems`: a JS object mapping table name to the ordered
list of request items, modelled as an insertion-ordered association list. -/
abbrev RequestItems (α : Type) := List (String × List (Item α))

/-- Property lookup `RequestItems[table]`. -/
def lookupTable : RequestItems α → String → Option (List (Item α))
  | [], _ => none
  | (k, v) :: rest, t => if k = t then some v else lookupTable rest t

/-- Property assignment `RequestItems[table] = v` (in-place update,
appending a new property at the end when absent, as JS objects do). -/
def setTable : RequestItems α → String → List (Item α) → RequestItems α
  | [], t, v => [(t, v)]
  | (k, w) :: rest, t, v =>
    if k = t then (t, v) :: rest else (k, w) :: setTable rest t v

/-- The push-or-replace step of `_addToBatch` on one table's list:
replace at the index found by `_getIndexWithinBatch`, else push. -/
def upsert (items : List (Item α)) (item : Item α) : List (Item α) :=
  match getIndexWithinBatch item items with
  | none => items ++ [item]
  | some i => items.set i item

/-- The effect of one `_addToBatch` call on the whole `RequestItems`
mapping (table entry created on demand, then push-or-replace). -/
def riAdd (ri : RequestItems α) (t : String) (item : Item α) : RequestItems α :=
  setTable ri t (upsert ((lookupTable ri t).getD []) item)

/-- One issued backend `documentClient.batchWrite` call: the batch handed
over and the callback snapshot bound to `_onBatchWriteComplete`. -/
structure BackendCall (α : Type) where
  requestItems : RequestItems α
  callbacks : List Nat
deriving DecidableEq

/-- The mutable connector state: `_batch` (null or a `RequestItems`
object), `_batchCallbacks`, `_batchTimeout` (null or an armed timer), and
the log of backend bulk-write calls issued so far. Callbacks are
identified by numeric ids. -/
structure ConnState (α : Type) where
  batch : Option (RequestItems α)
  batchCallbacks : List Nat
  batchTimeout : Bool
  calls : List (BackendCall α)
deriving DecidableEq

/-- `_writeBatch`: if no batch is pending, clear the timer and return;
otherwise issue `batchWrite` with the batch and a snapshot of the
callbacks, reset both, and re-arm the timer via `setTimeout`. -/
def writeBatch (s : ConnState α) : ConnState α :=
  match s.batch with
  | none => { s with batchTimeout := false }
  | some b =>
    { s with
      calls := s.calls ++ [⟨b, s.batchCallbacks⟩],
      batchCallbacks := [],
      batch := none,
      batchTimeout := true }

/-- `_addToBatch`: lazily allocate `_batch`/`_batchCallbacks`, ensure the
table's list exists, push or replace the item at the deduplication index,
always push the callback, and if no timer is armed flush immediately. -/
def addToBatch (s : ConnState α) (table : String) (item : Item α) (cb : Nat) :
    ConnState α :=
  let ri0 : RequestItems α := match s.batch with | none => [] | some b => b
  let cbs0 : List Nat := match s.batch with | none => [] | some _ => s.batchCallbacks
  let ri1 : RequestItems α :=
    match lookupTable ri0 table with
    | none => setTable ri0 table []
    | some _ => ri0
  let items := (lookupTable ri1 table).getD []
  let items2 :=
    match getIndexWithinBatch item items with
    | none => items ++ [item]
    | some i => items.set i item
  let s2 : ConnState α :=
    { s with batch := some (setTable ri1 table items2),
             batchCallbacks := cbs0 ++ [cb] }
  if s2.batchTimeout then s2 else writeBatch s2

/-- External events driving the connector: a `set`/`delete` call reduced
to its `_addToBatch` invocation, or the buffer timer firing (the
`setTimeout` handler, which runs `_writeBatch`). -/
inductive Event (α : Type) where
  | enqueue (table : String) (item : Item α) (cb : Nat)
  | timerFire
deriving DecidableEq

/-- One step of the connector state machine. A timer can only fire while
armed; an unarmed `timerFire` is a no-op. -/
def step (s : ConnState α) : Event α → ConnState α
  | .enqueue t item cb => addToBatch s t item cb
  | .timerFire => if s.batchTimeout then writeBatch s else s

/-- Run a sequence of events from a state. -/
def run (s : ConnState α) (evts : List (Event α)) : ConnState α :=
  evts.foldl step s

/-- The freshly constructed connector: `_batch = null`,
`_batchCallbacks = null` (no callbacks), no timer, no calls issued. -/
def initState : ConnState α :=
  { batch := none, batchCallbacks := [], batchTimeout := false, calls := [] }

/-- `_getId`: `name.substr(6)` — everything after the first 6 characters. -/
def getId (name : String) : String := ⟨name.data.drop 6⟩

/-- `_getTableName`: `name.substr(0, 6)` — the first 6 characters. -/
def getTableName (name : String) : String := ⟨name.data.take 6⟩

/-- `set(id, data, cb)`: transform the value, attach `ds_id`, enqueue a
`PutRequest` under the table derived from the key. `encode` stands for the
external `transformValueForStorage`. -/
def connSet (encode : β → α) (s : ConnState α) (id : String) (d : β) (cb : Nat) :
    ConnState α :=
  addToBatch s (getTableName id) (.putRequest (getId id) (encode d)) cb

/-- `delete(id, cb)`: enqueue a `DeleteRequest` keyed by `ds_id`. -/
def connDelete (s : ConnState α) (id : String) (cb : Nat) : ConnState α :=
  addToBatch s (getTableName id) (.deleteRequest (getId id)) cb

/-- `_onBatchWriteComplete`: invoke every callback of the batch with the
shared `(err, data)` outcome. The result is the list of invocations
performed, in order: `(callback id, err, data)`. -/
def onBatchWriteComplete (callbacks : List Nat) (err : ε) (data : δ) :
    List (Nat × ε × δ) :=
  callbacks.map (fun c => (c, err, data))

/-- An AWS SDK error object as far as `get` inspects it. -/
structure AwsError where
  code : String
  message : String

/-- `delete res.Item.ds_id`: strip the internal key attribute from the
stored record (modelled as an attribute association list). -/
def removeDsId (item : List (String × α)) : List (String × α) :=
  item.filter (fun p => !(p.1 == "ds_id"))

/-- The response handler inside `get(id, cb)`: a `ResourceNotFoundException`
or an absent item yields `cb(null, null)`; any other error yields
`cb(err.message)`; a found item has `ds_id` deleted, is decoded by the
external `transformValueFromStorage` (`decode`), and is passed to
`cb(null, data)`. The returned pair is the `(error, value)` the callback
receives. -/
def getHandler (decode : List (String × α) → β) (err : Option AwsError)
    (res : Option (Option (List (String × α)))) : Option String × Option β :=
  match err with
  | some e =>
    if e.code == "ResourceNotFoundException" then (none, none)
    else (some e.message, none)
  | none =>
    match res with
    | none => (none, none)
    | some none => (none, none)
    | some (some item) => (none, some (decode (removeDsId item)))

/-- The options object handed to the constructor: the two recognized
properties, each possibly absent. -/
structure COptions where
  region : Option String
  bufferTimeout : Option Nat

/-- JS truthiness of `options.region` (absent or empty string is falsy). -/
def truthyStr : Option String → Bool
  | none => false
  | some s => !(s == "")

/-- JS truthiness of `options.bufferTimeout` (absent or zero is falsy). -/
def truthyNum : Option Nat → Bool
  | none => false
  | some n => !(n == 0)

/-- The constructed connector as far as the constructor initialises it:
`isReady = true` is set, and the AWS clients exist only on success. -/
structure Connector where
  isReady : Bool
  region : String
  bufferTimeout : Nat

/-- The constructor: `options.region` and `options.bufferTimeout` are
checked (in that order) before any AWS client is created; a falsy value
throws the corresponding configuration error. -/
def construct (o : COptions) : Except String Connector :=
  if truthyStr o.region = false then .error "options.region is required"
  else if truthyNum o.bufferTimeout = false then
    .error "options.bufferTimeout is required"
  else .ok { isReady := true, region := o.region.getD "",
             bufferTimeout := o.bufferTimeout.getD 0 }

/-- The `RequestItems` object of the pending batch (`[]` when `_batch` is
null). -/
def RIof (s : ConnState α) : RequestItems α := s.batch.getD []

/-- The pending request list for one table. -/
def itemsOf (s : ConnState α) (t : String) : List (Item α) :=
  (lookupTable (RIof s) t).getD []

/-- The callback list `_addToBatch` starts from: reset to `[]` whenever the
batch is (re)allocated. -/
def cbsOf (s : ConnState α) : List Nat :=
  match s.batch with | none => [] | some _ => s.batchCallbacks

/-- Well-formedness of a connector state: a null batch carries no pending
callbacks. Holds for the fresh connector and is preserved by every event. -/
def wfState (s : ConnState α) : Prop :=
  s.batch = none → s.batchCallbacks = []

/-- Number of items in a list that `_getIndexWithinBatch` would accept as a
match for `probe` — i.e. items of the same kind with the same `ds_id`. -/
def matchCount (probe : Item α) (items : List (Item α)) : Nat :=
  items.countP (fun x => itemMatches probe x)

/-- Number of pending operations (of either kind) keyed by local-id `dk`
in table `t`. -/
def pairCount (s : ConnState α) (t dk : String) : Nat :=
  (itemsOf s t).countP (fun it => it.dsId == dk)

/-- Total number of registrations of callback id `cb` held by the state:
across all issued backend calls plus the pending callback list. -/
def totalCbCount (s : ConnState α) (cb : Nat) : Nat :=
  (s.calls.map (fun c => c.callbacks.count cb)).sum + s.batchCallbacks.count cb

/-- Number of enqueue events in a trace registering callback id `cb`. -/
def enqCount (evts : List (Event α)) (cb : Nat) : Nat :=
  evts.countP (fun e => match e with
    | .enqueue _ _ c => c == cb
    | .timerFire => false)

/-- A public `set` or `delete` call as issued by a caller. -/
inductive SDOp (β : Type) where
  | setOp (id : String) (d : β) (cb : Nat)
  | delOp (id : String) (cb : Nat)
deriving DecidableEq

/-- The table a `set`/`delete` call routes to. -/
def sdTable : SDOp β → String
  | .setOp id _ _ => getTableName id
  | .delOp id _ => getTableName id

/-- The batch item a `set`/`delete` call enqueues. -/
def sdItem (encode : β → α) : SDOp β → Item α
  | .setOp id d _ => .putRequest (getId id) (encode d)
  | .delOp id _ => .deleteRequest (getId id)

/-- The callback id a `set`/`delete` call registers. -/
def sdCb : SDOp β → Nat
  | .setOp _ _ cb => cb
  | .delOp _ cb => cb

/-- Apply one public `set`/`delete` call to the connector state. -/
def applySD (encode : β → α) (s : ConnState α) : SDOp β → ConnState α
  | .setOp id d cb => connSet encode s id d cb
  | .delOp id cb => connDelete s id cb

/-- Apply a back-to-back sequence of `set`/`delete` calls (no timer fires
in between: all within one buffer window). -/
def runSD (encode : β → α) (s : ConnState α) (ops : List (SDOp β)) : ConnState α :=
  ops.foldl (applySD encode) s

/-- The `RequestItems` accumulated by a sequence of `set`/`delete` calls
starting from `base`. -/
def riAccum (encode : β → α) (base : RequestItems α) (ops : List (SDOp β)) :
    RequestItems α :=
  ops.foldl (fun ri o => riAdd ri (sdTable o) (sdItem encode o)) base

/-- A concrete trace for claim C4: one op opens the window (and is flushed
alone), then a Put and a Delete for the same (namespace, local-id) pair
accumulate in the same window. -/
def c4trace : List (Event Nat) :=
  [.enqueue "aaaaaa" (.putRequest "y" 0) 0,
   .enqueue "aaaaaa" (.putRequest "x" 1) 1,
   .enqueue "aaaaaa" (.deleteRequest "x") 2]

/-! ### Claim theorems -/

/-- Claim C7: key splitting is a total positional split at width 6: the
namespace (`getTableName`) is the first 6 characters, the local id
(`getId`) is the remainder, they recombine to the original key, a key of
length at most 6 yields an empty local id, and `"abcdefghij"` splits into
`"abcdef"` and `"ghij"`. -/
theorem C7_key_split :
    (∀ k : String, getTableName k ++ getId k = k ∧
      (getTableName k).data = k.data.take 6 ∧
      (getId k).data = k.data.drop 6 ∧
      (k.data.length ≤ 6 → getId k = "")) ∧
    getTableName "abcdefghij" = "abcdef" ∧ getId "abcdefghij" = "ghij" := by
  refine ⟨fun k => ⟨?_, rfl, rfl, fun h => ?_⟩, by decide, by decide⟩
  · cases k with
    | mk data => exact congrArg String.mk (List.take_append_drop 6 data)
  · cases k with
    | mk data =>
      show String.mk (data.drop 6) = ""
      rw [List.drop_eq_nil_of_le h]

/-- Witness for C7 at the concrete key "abc" (length ≤ 6). -/
theorem C7_key_split_witness :
    getTableName "abc" ++ getId "abc" = "abc" ∧ getId "abc" = "" :=
  ⟨(C7_key_split.1 "abc").1, (C7_key_split.1 "abc").2.2.2 (by decide)⟩

/-- Claim C8: in `get`, a backend not-found outcome — a
`ResourceNotFoundException` error, a missing response, or a response with
no item — completes the callback with `(null, null)`; a found item has its
internal `ds_id` attribute removed before being decoded and handed to the
callback. -/
theorem C8_get_not_found :
    (∀ (decode : List (String × α) → β) (e : AwsError) res,
       e.code = "ResourceNotFoundException" →
       getHandler decode (some e) res = (none, none)) ∧
    (∀ decode : List (String × α) → β,
       getHandler decode none none = (none, none)) ∧
    (∀ decode : List (String × α) → β,
       getHandler decode none (some none) = (none, none)) ∧
    (∀ (decode : List (String × α) → β) item,
       getHandler decode none (some (some item)) =
         (none, some (decode (removeDsId item))) ∧
       ∀ p ∈ removeDsId item, p.1 ≠ "ds_id") := by
  refine ⟨fun decode e res he => ?_, fun _ => rfl, fun _ => rfl,
    fun decode item => ⟨rfl, fun p hp => ?_⟩⟩
  · simp [getHandler, he]
  · have := List.of_mem_filter hp
    simpa using this

/-- Witness for C8: the not-found error branch at a concrete error, and
the `ds_id`-stripping at a concrete record. -/
theorem C8_get_not_found_witness :
    getHandler (fun l : List (String × Nat) => l.length)
      (some ⟨"ResourceNotFoundException", "not found"⟩) none = (none, none) ∧
    ("a", 2).1 ≠ "ds_id" :=
  ⟨(@C8_get_not_found Nat Nat).1 (fun l => l.length)
      ⟨"ResourceNotFoundException", "not found"⟩ none rfl,
    ((@C8_get_not_found Nat Nat).2.2.2 (fun l => l.length)
      [("ds_id", 1), ("a", 2)]).2 ("a", 2) (by decide)⟩

/-- Claim C9: construction with `region` or `bufferTimeout` absent fails
immediately with a configuration error (no connector, hence no AWS client,
is ever produced); with both present and truthy (a non-empty region and a
positive timeout, as the spec requires `bufferTimeout > 0`) construction
succeeds and the connector reports itself ready. -/
theorem C9_constructor_validation :
    (∀ o : COptions, o.region = none ∨ o.bufferTimeout = none →
      ∃ msg, construct o = .error msg) ∧
    (∀ (r : String) (t : Nat), r ≠ "" → 0 < t →
      ∃ c, construct ⟨some r, some t⟩ = .ok c ∧ c.isReady = true) := by
  constructor
  · rintro ⟨reg, buf⟩ (h | h)
    · subst h
      exact ⟨"options.region is required", rfl⟩
    · subst h
      cases reg with
      | none => exact ⟨"options.region is required", rfl⟩
      | some s =>
        by_cases hs : s = ""
        · subst hs
          exact ⟨"options.region is required", rfl⟩
        · refine ⟨"options.bufferTimeout is required", ?_⟩
          simp [construct, truthyStr, truthyNum, hs]
  · intro r t hr ht
    refine ⟨⟨true, r, t⟩, ?_, rfl⟩
    simp [construct, truthyStr, truthyNum, hr, Nat.pos_iff_ne_zero.mp ht]

/-- Witness for C9: a missing region fails, and a fully specified options
object succeeds with a ready connector. -/
theorem C9_constructor_validation_witness :
    (∃ msg, construct ⟨none, some 500⟩ = .error msg) ∧
    (∃ c, construct ⟨some "eu-central-1", some 500⟩ = .ok c ∧
      c.isReady = true) :=
  ⟨C9_constructor_validation.1 ⟨none, some 500⟩ (Or.inl rfl),
    C9_constructor_validation.2 "eu-central-1" 500 (by decide) (by decide)⟩

/-! ### Helper lemmas: table map and `_addToBatch` normal forms -/

theorem lookupTable_setTable (ri : RequestItems α) (t t' : String)
    (v : List (Item α)) :
    lookupTable (setTable ri t v) t' =
      if t = t' then some v else lookupTable ri t' := by
  induction ri with
  | nil => simp [setTable, lookupTable]
  | cons p rest ih =>
    obtain ⟨k, w⟩ := p
    by_cases hk : k = t
    · subst hk
      by_cases h : k = t' <;> simp [setTable, lookupTable, h]
    · by_cases h : t = t'
      · subst h
        simp [setTable, lookupTable, hk, ih]
      · have h' : ¬t' = t := fun hh => h hh.symm
        by_cases h2 : k = t' <;> simp [setTable, lookupTable, hk, h, h', h2, ih]

theorem setTable_setTable (ri : RequestItems α) (t : String)
    (v w : List (Item α)) :
    setTable (setTable ri t v) t w = setTable ri t w := by
  induction ri with
  | nil => simp [setTable]
  | cons p rest ih =>
    obtain ⟨k, u⟩ := p
    by_cases hk : k = t <;> simp [setTable, hk, ih]

theorem addToBatch_eq (s : ConnState α) (t : String) (item : Item α) (cb : Nat) :
    addToBatch s t item cb =
      if s.batchTimeout then
        { s with batch := some (riAdd (RIof s) t item),
                 batchCallbacks := cbsOf s ++ [cb] }
      else
        { s with calls := s.calls ++ [⟨riAdd (RIof s) t item, cbsOf s ++ [cb]⟩],
                 batchCallbacks := [], batch := none, batchTimeout := true } := by
  unfold addToBatch
  cases hb : s.batch with
  | none =>
    simp only [RIof, cbsOf, riAdd, upsert, hb, Option.getD_none, Option.getD_some,
      lookupTable, setTable]
    cases hti : s.batchTimeout <;> simp [writeBatch, hti]
  | some b =>
    cases hlk : lookupTable b t with
    | none =>
      simp only [RIof, cbsOf, riAdd, upsert, hb, Option.getD_none, Option.getD_some,
        hlk, lookupTable_setTable, setTable_setTable, if_pos rfl]
      cases hti : s.batchTimeout <;> simp [writeBatch, hti]
    | some l =>
      simp only [RIof, cbsOf, riAdd, upsert, hb, Option.getD_none, Option.getD_some, hlk]
      cases hti : s.batchTimeout <;> simp [writeBatch, hti]

theorem addToBatch_armed (s : ConnState α) (t : String) (item : Item α) (cb : Nat)
    (ht : s.batchTimeout = true) :
    addToBatch s t item cb =
      { s with batch := some (riAdd (RIof s) t item),
               batchCallbacks := cbsOf s ++ [cb] } := by
  rw [addToBatch_eq, if_pos ht]

theorem addToBatch_unarmed (s : ConnState α) (t : String) (item : Item α) (cb : Nat)
    (ht : s.batchTimeout = false) :
    addToBatch s t item cb =
      { s with calls := s.calls ++ [⟨riAdd (RIof s) t item, cbsOf s ++ [cb]⟩],
               batchCallbacks := [], batch := none, batchTimeout := true } := by
  rw [addToBatch_eq, if_neg (by simp [ht])]

theorem itemsOf_addToBatch_armed (s : ConnState α) (t t' : String) (item : Item α)
    (cb : Nat) (ht : s.batchTimeout = true) :
    itemsOf (addToBatch s t item cb) t' =
      if t = t' then upsert (itemsOf s t) item else itemsOf s t' := by
  rw [addToBatch_armed s t item cb ht]
  simp only [itemsOf, RIof, riAdd, Option.getD_some, lookupTable_setTable]
  by_cases h : t = t' <;> simp [h, itemsOf, RIof, upsert]

/-! ### Helper lemmas: the dedup match relation and index scan -/

theorem itemMatches_symm (a b : Item α) : itemMatches a b = itemMatches b a := by
  cases a with
  | putRequest k p =>
    cases b with
    | putRequest k2 p2 =>
      by_cases h : k = k2
      · subst h; rfl
      · have h2 : ¬k2 = k := fun hh => h hh.symm
        simp [itemMatches, h, h2]
    | deleteRequest k2 => rfl
  | deleteRequest k =>
    cases b with
    | putRequest k2 p2 => rfl
    | deleteRequest k2 =>
      by_cases h : k = k2
      · subst h; rfl
      · have h2 : ¬k2 = k := fun hh => h hh.symm
        simp [itemMatches, h, h2]

theorem itemMatches_left_congr {a b : Item α} (h : itemMatches a b = true)
    (c : Item α) : itemMatches a c = itemMatches b c := by
  cases a with
  | putRequest k p =>
    cases b with
    | putRequest k2 p2 =>
      have hk : k = k2 := by simpa [itemMatches] using h
      subst hk
      cases c <;> simp [itemMatches]
    | deleteRequest k2 => simp [itemMatches] at h
  | deleteRequest k =>
    cases b with
    | putRequest k2 p2 => simp [itemMatches] at h
    | deleteRequest k2 =>
      have hk : k = k2 := by simpa [itemMatches] using h
      subst hk
      cases c <;> simp [itemMatches]

theorem itemMatches_right_congr {a b : Item α} (h : itemMatches a b = true)
    (p : Item α) : itemMatches p a = itemMatches p b := by
  rw [itemMatches_symm p a, itemMatches_symm p b]
  exact itemMatches_left_congr h p

theorem getIndexWithinBatch_eq_none {item : Item α} {items : List (Item α)} :
    getIndexWithinBatch item items = none ↔
      ∀ x ∈ items, itemMatches item x = false := by
  induction items with
  | nil => simp [getIndexWithinBatch]
  | cons y ys ih =>
    cases hmy : itemMatches item y with
    | true =>
      constructor
      · intro hn
        simp [getIndexWithinBatch, hmy] at hn
      · intro hall
        exact absurd (hall y (List.mem_cons_self y ys)) (by simp [hmy])
    | false =>
      simp [getIndexWithinBatch, hmy, Option.map_eq_none', ih,
        List.forall_mem_cons]

theorem getIndexWithinBatch_eq_some {item : Item α} {items : List (Item α)}
    {i : Nat} (h : getIndexWithinBatch item items = some i) :
    (∃ y, items[i]? = some y ∧ itemMatches item y = true) ∧
      ∀ j, j < i → ∀ x, items[j]? = some x → itemMatches item x = false := by
  induction items generalizing i with
  | nil => simp [getIndexWithinBatch] at h
  | cons y ys ih =>
    cases hmy : itemMatches item y with
    | true =>
      rw [getIndexWithinBatch, if_pos hmy, Option.some.injEq] at h
      subst h
      exact ⟨⟨y, by simp, hmy⟩, fun j hj x hx => absurd hj (Nat.not_lt_zero j)⟩
    | false =>
      rw [getIndexWithinBatch, if_neg (by simp [hmy]), Option.map_eq_some'] at h
      obtain ⟨i', hi', rfl⟩ := h
      obtain ⟨⟨z, hz, hmz⟩, hpre⟩ := ih hi'
      refine ⟨⟨z, by simpa using hz, hmz⟩, ?_⟩
      intro j hj x hx
      cases j with
      | zero =>
        simp only [List.getElem?_cons_zero, Option.some.injEq] at hx
        subst hx
        exact hmy
      | succ j' =>
        exact hpre j' (Nat.lt_of_succ_lt_succ hj) x (by simpa using hx)

theorem getIndexWithinBatch_intro {item : Item α} {items : List (Item α)}
    {i : Nat} {y : Item α} (hy : items[i]? = some y)
    (hm : itemMatches item y = true)
    (hpre : ∀ j, j < i → ∀ x, items[j]? = some x → itemMatches item x = false) :
    getIndexWithinBatch item items = some i := by
  induction items generalizing i with
  | nil => simp at hy
  | cons z zs ih =>
    cases i with
    | zero =>
      simp only [List.getElem?_cons_zero, Option.some.injEq] at hy
      subst hy
      simp [getIndexWithinBatch, hm]
    | succ i' =>
      have hz : itemMatches item z = false := hpre 0 (Nat.succ_pos i') z (by simp)
      rw [getIndexWithinBatch, if_neg (by simp [hz]), Option.map_eq_some']
      refine ⟨i', ih (by simpa using hy) ?_, rfl⟩
      intro j hj x hx
      exact hpre (j + 1) (Nat.succ_lt_succ hj) x (by simpa using hx)

/-! ### Helper lemmas: match counting and the dedup invariant -/

theorem matchCount_eq_zero {probe : Item α} {items : List (Item α)} :
    matchCount probe items = 0 ↔ ∀ x ∈ items, itemMatches probe x = false := by
  unfold matchCount
  rw [List.countP_eq_zero]
  constructor
  · intro h x hx
    exact Bool.eq_false_iff.mpr (h x hx)
  · intro h x hx
    exact Bool.eq_false_iff.mp (h x hx)

theorem getIndexWithinBatch_none_iff_matchCount_zero {probe : Item α}
    {items : List (Item α)} :
    getIndexWithinBatch probe items = none ↔ matchCount probe items = 0 := by
  rw [getIndexWithinBatch_eq_none, matchCount_eq_zero]

theorem matchCount_pos_of_some {probe : Item α} {items : List (Item α)} {i : Nat}
    (h : getIndexWithinBatch probe items = some i) :
    1 ≤ matchCount probe items := by
  obtain ⟨⟨y, hy, hmy⟩, -⟩ := getIndexWithinBatch_eq_some h
  have hmem : y ∈ items := List.getElem?_mem hy
  unfold matchCount
  rw [Nat.succ_le, List.countP_pos_iff]
  exact ⟨y, hmem, hmy⟩

theorem matchCount_upsert_le (probe item : Item α) (items : List (Item α))
    (h : matchCount probe items ≤ 1) :
    matchCount probe (upsert items item) ≤ 1 := by
  unfold upsert
  cases hidx : getIndexWithinBatch item items with
  | none =>
    have hall := getIndexWithinBatch_eq_none.mp hidx
    cases hpi : itemMatches probe item with
    | true =>
      have h0 : matchCount probe items = 0 := by
        rw [matchCount_eq_zero]
        intro x hx
        rw [itemMatches_left_congr hpi x]
        exact hall x hx
      unfold matchCount at h0 ⊢
      rw [List.countP_append]
      simp [h0, hpi]
    | false =>
      unfold matchCount at h ⊢
      rw [List.countP_append]
      have h1 : List.countP (fun x => itemMatches probe x) [item] = 0 := by
        simp [hpi]
      omega
  | some i =>
    obtain ⟨⟨y, hy, hmy⟩, -⟩ := getIndexWithinBatch_eq_some hidx
    obtain ⟨hilt, hyi⟩ := List.getElem?_eq_some.mp hy
    unfold matchCount at h ⊢
    rw [List.countP_set _ _ _ _ hilt]
    rw [hyi, itemMatches_right_congr hmy probe]
    cases hcy : itemMatches probe y with
    | true =>
      have hb : 0 < List.countP (fun x => itemMatches probe x) items :=
        List.countP_pos_iff.mpr ⟨y, List.getElem?_mem hy, hcy⟩
      simp only [hcy, if_pos]
      omega
    | false =>
      simp only [hcy, Bool.false_eq_true, if_false]
      omega

theorem dedupInv_step {s : ConnState α} (e : Event α)
    (h : ∀ t probe, matchCount probe (itemsOf s t) ≤ 1) :
    ∀ t probe, matchCount probe (itemsOf (step s e) t) ≤ 1 := by
  cases e with
  | enqueue t0 item cb =>
    intro t probe
    cases ht : s.batchTimeout with
    | true =>
      rw [show step s (Event.enqueue t0 item cb) = addToBatch s t0 item cb from rfl,
        itemsOf_addToBatch_armed s t0 t item cb ht]
      by_cases h0 : t0 = t
      · subst h0
        simp only [if_pos rfl]
        exact matchCount_upsert_le probe item _ (h t0 probe)
      · simp only [h0, if_neg]
        exact h t probe
    | false =>
      rw [show step s (Event.enqueue t0 item cb) = addToBatch s t0 item cb from rfl,
        addToBatch_unarmed s t0 item cb ht]
      simp [itemsOf, RIof, lookupTable, matchCount]
  | timerFire =>
    intro t probe
    cases ht : s.batchTimeout with
    | false => simpa [step, ht] using h t probe
    | true =>
      cases hb : s.batch with
      | none => simp [step, ht, writeBatch, hb, itemsOf, RIof, matchCount, lookupTable]
      | some b => simp [step, ht, writeBatch, hb, itemsOf, RIof, matchCount, lookupTable]

theorem dedupInv_run (evts : List (Event α)) (s : ConnState α)
    (h : ∀ t probe, matchCount probe (itemsOf s t) ≤ 1) :
    ∀ t probe, matchCount probe (itemsOf (run s evts) t) ≤ 1 := by
  induction evts generalizing s with
  | nil => exact h
  | cons e rest ih => exact ih (step s e) (dedupInv_step e h)

theorem timerInv_step {s : ConnState α} (e : Event α)
    (h : s.batch ≠ none → s.batchTimeout = true) :
    (step s e).batch ≠ none → (step s e).batchTimeout = true := by
  cases e with
  | enqueue t item cb =>
    cases ht : s.batchTimeout with
    | true =>
      intro hne
      rw [show step s (Event.enqueue t item cb) = addToBatch s t item cb from rfl,
        addToBatch_armed s t item cb ht]
      exact ht
    | false =>
      intro hne
      rw [show step s (Event.enqueue t item cb) = addToBatch s t item cb from rfl,
        addToBatch_unarmed s t item cb ht]
  | timerFire =>
    cases ht : s.batchTimeout with
    | false => simpa [step, ht] using h
    | true =>
      cases hb : s.batch with
      | none =>
        intro hne
        simp [step, ht, writeBatch, hb] at hne
      | some b =>
        intro hne
        simp [step, ht, writeBatch, hb]

theorem timerInv_run (evts : List (Event α)) (s : ConnState α)
    (h : s.batch ≠ none → s.batchTimeout = true) :
    (run s evts).batch ≠ none → (run s evts).batchTimeout = true := by
  induction evts generalizing s with
  | nil => exact h
  | cons e rest ih => exact ih (step s e) (timerInv_step e h)

/-- Counterexample to claim C4 as stated: after a Put and a Delete for the
same (namespace, local-id) pair accumulate in one window, the pending batch
holds TWO operations keyed by that pair — the Delete did not replace the
Put. -/
theorem C4_pair_counterexample :
    ¬ pairCount (run initState c4trace) "aaaaaa" "x" ≤ 1 := by decide

/-- Claim C4 (amended): for every reachable state, at most one
PendingOperation per operation kind and (namespace, local-id) pair exists
in the pending batch (`matchCount` counts same-kind same-key entries); and
when `_getIndexWithinBatch` does find a match, the incoming operation
replaces in place rather than being appended (the list length is
unchanged). -/
theorem C4_at_most_one_per_kind_and_key :
    (∀ (evts : List (Event α)) (t : String) (probe : Item α),
      matchCount probe (itemsOf (run initState evts) t) ≤ 1) ∧
    (∀ (items : List (Item α)) (item : Item α),
      getIndexWithinBatch item items ≠ none →
      (upsert items item).length = items.length) := by
  constructor
  · intro evts t probe
    refine dedupInv_run evts initState ?_ t probe
    intro t' probe'
    simp [itemsOf, RIof, initState, matchCount, lookupTable]
  · intro items item hne
    unfold upsert
    cases hidx : getIndexWithinBatch item items with
    | none => exact absurd hidx hne
    | some i => simp

/-- Witness for C4 (amended): the replace-in-place branch at a concrete
batch already holding a Put for the key. -/
theorem C4_at_most_one_per_kind_and_key_witness :
    (upsert [Item.putRequest "x" (0 : Nat)] (Item.putRequest "x" 1)).length =
      [Item.putRequest "x" (0 : Nat)].length :=
  C4_at_most_one_per_kind_and_key.2 [Item.putRequest "x" 0]
    (Item.putRequest "x" 1) (by decide)

/-- Claim C10: in every reachable state, a non-null pending batch implies
the flush timer is armed — no operation can sit in the accumulator with no
flush scheduled. -/
theorem C10_pending_implies_timer (evts : List (Event α)) :
    (run initState evts).batch ≠ none → (run initState evts).batchTimeout = true :=
  timerInv_run evts initState (fun hne => absurd rfl hne)

/-- Witness for C10: after two back-to-back enqueues the batch is non-null
and, by the theorem, the timer is armed. -/
theorem C10_pending_implies_timer_witness :
    (run initState [Event.enqueue "aaaaaa" (Item.putRequest "x" (0 : Nat)) 0,
      Event.enqueue "aaaaaa" (Item.putRequest "z" 1) 1]).batchTimeout = true :=
  C10_pending_implies_timer _ (by decide)

/-- Claim C6: when the timer fires with nothing accumulated, the connector
goes back to Idle (timer cleared) without issuing any backend call, and the
next `set`/`delete` after such an empty window triggers an immediate flush
of just that operation, re-arming the timer. -/
theorem C6_idle_restart (s : ConnState α) (t : String) (item : Item α) (cb : Nat)
    (hb : s.batch = none) (ht : s.batchTimeout = true) :
    step s Event.timerFire = { s with batchTimeout := false } ∧
    (step s Event.timerFire).calls = s.calls ∧
    step (step s Event.timerFire) (Event.enqueue t item cb) =
      { s with batch := none, batchCallbacks := [],
               batchTimeout := true,
               calls := s.calls ++ [⟨[(t, [item])], [cb]⟩] } := by
  have h1 : step s Event.timerFire = { s with batchTimeout := false } := by
    simp [step, ht, writeBatch, hb]
  refine ⟨h1, by rw [h1], ?_⟩
  rw [h1]
  rw [show step ({ s with batchTimeout := false } : ConnState α)
        (Event.enqueue t item cb) =
      addToBatch { s with batchTimeout := false } t item cb from rfl]
  rw [addToBatch_unarmed _ t item cb rfl]
  simp [RIof, cbsOf, hb, riAdd, upsert, getIndexWithinBatch, setTable, lookupTable]

/-- Witness for C6 at a concrete armed-empty state. -/
theorem C6_idle_restart_witness :
    (step (step (⟨none, [], true, []⟩ : ConnState Nat) Event.timerFire)
      (Event.enqueue "aaaaaa" (Item.putRequest "x" 0) 5)).calls =
      [⟨[("aaaaaa", [Item.putRequest "x" 0])], [5]⟩] := by
  rw [(C6_idle_restart _ "aaaaaa" (Item.putRequest "x" 0) 5 rfl rfl).2.2]
  rfl

/-! ### Helper lemmas: callback conservation -/

theorem cbsOf_count (s : ConnState α) (hwf : wfState s) (cb : Nat) :
    (cbsOf s).count cb = s.batchCallbacks.count cb := by
  unfold cbsOf
  cases hb : s.batch with
  | none => rw [hwf hb]
  | some b => rfl

theorem wfState_step {s : ConnState α} (e : Event α) (hwf : wfState s) :
    wfState (step s e) := by
  cases e with
  | enqueue t item cb =>
    cases ht : s.batchTimeout with
    | true =>
      rw [show step s (Event.enqueue t item cb) = addToBatch s t item cb from rfl,
        addToBatch_armed s t item cb ht]
      intro h
      simp at h
    | false =>
      rw [show step s (Event.enqueue t item cb) = addToBatch s t item cb from rfl,
        addToBatch_unarmed s t item cb ht]
      intro _
      rfl
  | timerFire =>
    cases ht : s.batchTimeout with
    | false => simpa [step, ht] using hwf
    | true =>
      cases hb : s.batch with
      | none =>
        simp only [step, ht, if_pos, writeBatch, hb]
        intro _
        exact hwf hb
      | some b =>
        simp only [step, ht, if_pos, writeBatch, hb]
        intro _
        rfl

theorem wfState_run (evts : List (Event α)) {s : ConnState α} (hwf : wfState s) :
    wfState (run s evts) := by
  induction evts generalizing s with
  | nil => exact hwf
  | cons e rest ih => exact ih (wfState_step e hwf)

theorem totalCbCount_step {s : ConnState α} (e : Event α) (hwf : wfState s)
    (cb : Nat) :
    totalCbCount (step s e) cb =
      totalCbCount s cb + (match e with
        | .enqueue _ _ c => if c = cb then 1 else 0
        | .timerFire => 0) := by
  cases e with
  | enqueue t item c =>
    cases ht : s.batchTimeout with
    | true =>
      rw [show step s (Event.enqueue t item c) = addToBatch s t item c from rfl,
        addToBatch_armed s t item c ht]
      simp only [totalCbCount, List.count_append]
      rw [cbsOf_count s hwf cb]
      simp [List.count_cons, List.count_nil]
      omega
    | false =>
      rw [show step s (Event.enqueue t item c) = addToBatch s t item c from rfl,
        addToBatch_unarmed s t item c ht]
      simp only [totalCbCount, List.map_append, List.sum_append, List.count_append,
        List.map_cons, List.map_nil, List.sum_cons, List.sum_nil]
      rw [cbsOf_count s hwf cb]
      simp [List.count_cons, List.count_nil]
      omega
  | timerFire =>
    cases ht : s.batchTimeout with
    | false => simp [step, ht]
    | true =>
      cases hb : s.batch with
      | none => simp [step, ht, writeBatch, hb, totalCbCount]
      | some b =>
        simp only [step, ht, if_pos, writeBatch, hb, totalCbCount, List.map_append,
          List.sum_append, List.map_cons, List.map_nil, List.sum_cons, List.sum_nil,
          List.count_nil]
        omega

theorem totalCbCount_run (evts : List (Event α)) {s : ConnState α}
    (hwf : wfState s) (cb : Nat) :
    totalCbCount (run s evts) cb = totalCbCount s cb + enqCount evts cb := by
  induction evts generalizing s with
  | nil => simp [run, enqCount]
  | cons e rest ih =>
    have hstep := totalCbCount_step e hwf cb
    have hrest := ih (wfState_step e hwf)
    rw [show run s (e :: rest) = run (step s e) rest from rfl] at *
    rw [hrest, hstep]
    unfold enqCount
    rw [List.countP_cons]
    cases e with
    | enqueue t item c =>
      by_cases hc : c = cb
      · simp [enqCount, hc]
        omega
      · simp [enqCount, hc]
    | timerFire => simp [enqCount]

/-- Claim C5: `_onBatchWriteComplete` invokes every callback registered for
the batch exactly once per registration, each with the identical shared
`(err, data)` outcome; and across any event trace, callback registrations
are conserved — each enqueue's callback ends up in the pending list or in
exactly the calls it was registered for, so a callback enqueued once is
invoked by at most one batch completion and never by another batch's. -/
theorem C5_callback_fanout [DecidableEq ε] [DecidableEq δ] :
    (∀ (cbs : List Nat) (err : ε) (data : δ) (cb : Nat),
      (onBatchWriteComplete cbs err data).countP
        (fun x => decide (x = (cb, err, data))) = cbs.count cb) ∧
    (∀ (cbs : List Nat) (err : ε) (data : δ),
      ∀ x ∈ onBatchWriteComplete cbs err data, x.2.1 = err ∧ x.2.2 = data) ∧
    (∀ (evts : List (Event α)) (cb : Nat),
      totalCbCount (run initState evts) cb = enqCount evts cb) ∧
    (∀ (evts : List (Event α)) (cb : Nat), enqCount evts cb = 1 →
      ((run initState evts).calls.map (fun c => c.callbacks.count cb)).sum ≤ 1) := by
  refine ⟨fun cbs err data cb => ?_, fun cbs err data x hx => ?_,
    fun evts cb => ?_, fun evts cb h1 => ?_⟩
  · induction cbs with
    | nil => rfl
    | cons c rest ih =>
      simp only [onBatchWriteComplete, List.map_cons, List.countP_cons,
        List.count_cons] at ih ⊢
      rw [ih]
      by_cases hc : c = cb <;> simp [hc]
  · unfold onBatchWriteComplete at hx
    obtain ⟨c, -, rfl⟩ := List.mem_map.mp hx
    exact ⟨rfl, rfl⟩
  · have h := @totalCbCount_run α evts initState (fun _ => rfl) cb
    have h0 : totalCbCount (initState : ConnState α) cb = 0 := rfl
    rw [h0] at h
    simpa using h
  · have h := @totalCbCount_run α evts initState (fun _ => rfl) cb
    rw [h1] at h
    have h0 : totalCbCount (initState : ConnState α) cb = 0 := rfl
    rw [h0] at h
    unfold totalCbCount at h
    omega

/-- Witness for C5: the verbatim-outcome fact at one concrete invocation,
and the at-most-one-invoking-batch fact on a concrete one-enqueue trace. -/
theorem C5_callback_fanout_witness :
    ((1, some "boom", some 0).2.1 = some "boom" ∧
      (1, some "boom", some 0).2.2 = some 0) ∧
    ((run initState [Event.enqueue "aaaaaa" (Item.putRequest "x" (0 : Nat)) 3]).calls.map
      (fun c => c.callbacks.count 3)).sum ≤ 1 :=
  ⟨(@C5_callback_fanout Nat (Option String) (Option Nat) _ _).2.1
      [1, 2] (some "boom") (some 0) (1, some "boom", some 0) (by decide),
    (@C5_callback_fanout Nat (Option String) (Option Nat) _ _).2.2.2
      [Event.enqueue "aaaaaa" (Item.putRequest "x" 0) 3] 3 (by decide)⟩

/-! ### Helper lemmas: accumulation while the timer is armed -/

theorem cbsOf_eq (s : ConnState α) (hwf : wfState s) :
    cbsOf s = s.batchCallbacks := by
  unfold cbsOf
  cases hb : s.batch with
  | none => rw [hwf hb]
  | some b => rfl

theorem RIof_some {s : ConnState α} {b : RequestItems α} (h : s.batch = some b) :
    RIof s = b := by
  unfold RIof
  rw [h]
  rfl

theorem run_enqueues_armed (ops : List (String × Item α × Nat)) (s : ConnState α)
    (ht : s.batchTimeout = true) (hwf : wfState s) :
    (run s (ops.map (fun o => Event.enqueue o.1 o.2.1 o.2.2))).calls = s.calls ∧
    (run s (ops.map (fun o => Event.enqueue o.1 o.2.1 o.2.2))).batchTimeout = true ∧
    (run s (ops.map (fun o => Event.enqueue o.1 o.2.1 o.2.2))).batchCallbacks =
      s.batchCallbacks ++ ops.map (fun o => o.2.2) ∧
    RIof (run s (ops.map (fun o => Event.enqueue o.1 o.2.1 o.2.2))) =
      ops.foldl (fun ri o => riAdd ri o.1 o.2.1) (RIof s) ∧
    ((s.batch ≠ none ∨ ops ≠ []) →
      (run s (ops.map (fun o => Event.enqueue o.1 o.2.1 o.2.2))).batch ≠ none) ∧
    wfState (run s (ops.map (fun o => Event.enqueue o.1 o.2.1 o.2.2))) := by
  induction ops generalizing s with
  | nil =>
    refine ⟨rfl, ht, by simp [run], rfl, ?_, hwf⟩
    rintro (h | h)
    · exact h
    · exact absurd rfl h
  | cons o rest ih =>
    have heq : addToBatch s o.1 o.2.1 o.2.2 =
        { s with batch := some (riAdd (RIof s) o.1 o.2.1),
                 batchCallbacks := s.batchCallbacks ++ [o.2.2] } := by
      rw [addToBatch_armed s o.1 o.2.1 o.2.2 ht, cbsOf_eq s hwf]
    have ht1 : (addToBatch s o.1 o.2.1 o.2.2).batchTimeout = true := by
      rw [heq]; exact ht
    have hwf1 : wfState (addToBatch s o.1 o.2.1 o.2.2) := by
      rw [heq]; intro hc; simp at hc
    obtain ⟨c1, t1, cb1, ri1, nb1, wf1⟩ := ih (addToBatch s o.1 o.2.1 o.2.2) ht1 hwf1
    have hrun : run s ((o :: rest).map (fun o => Event.enqueue o.1 o.2.1 o.2.2)) =
        run (addToBatch s o.1 o.2.1 o.2.2)
          (rest.map (fun o => Event.enqueue o.1 o.2.1 o.2.2)) := rfl
    rw [hrun]
    refine ⟨by rw [c1, heq], t1, ?_, ?_, ?_, wf1⟩
    · rw [cb1, heq]
      simp
    · rw [ri1]
      have : RIof (addToBatch s o.1 o.2.1 o.2.2) = riAdd (RIof s) o.1 o.2.1 := by
        rw [heq]; rfl
      rw [this]
      rfl
    · intro _
      refine nb1 (Or.inl ?_)
      rw [heq]
      simp

theorem applySD_eq (encode : β → α) (s : ConnState α) (op : SDOp β) :
    applySD encode s op =
      step s (Event.enqueue (sdTable op) (sdItem encode op) (sdCb op)) := by
  cases op <;> rfl

theorem runSD_eq (encode : β → α) (s : ConnState α) (ops : List (SDOp β)) :
    runSD encode s ops =
      run s (ops.map (fun o =>
        Event.enqueue (sdTable o) (sdItem encode o) (sdCb o))) := by
  induction ops generalizing s with
  | nil => rfl
  | cons o rest ih =>
    rw [show runSD encode s (o :: rest) =
        runSD encode (applySD encode s o) rest from rfl, ih, applySD_eq]
    rfl

theorem runSD_armed (encode : β → α) (s : ConnState α) (ops : List (SDOp β))
    (ht : s.batchTimeout = true) (hwf : wfState s) :
    (runSD encode s ops).calls = s.calls ∧
    (runSD encode s ops).batchTimeout = true ∧
    (runSD encode s ops).batchCallbacks = s.batchCallbacks ++ ops.map sdCb ∧
    RIof (runSD encode s ops) = riAccum encode (RIof s) ops ∧
    ((s.batch ≠ none ∨ ops ≠ []) → (runSD encode s ops).batch ≠ none) := by
  have key := run_enqueues_armed
    (ops.map (fun o => (sdTable o, sdItem encode o, sdCb o))) s ht hwf
  rw [List.map_map] at key
  have hmapeq : (fun o => Event.enqueue (α := α) o.1 o.2.1 o.2.2) ∘
      (fun o : SDOp β => (sdTable o, sdItem encode o, sdCb o)) =
      fun o => Event.enqueue (sdTable o) (sdItem encode o) (sdCb o) := rfl
  rw [hmapeq] at key
  rw [runSD_eq]
  obtain ⟨c1, t1, cb1, ri1, nb1, -⟩ := key
  refine ⟨c1, t1, ?_, ?_, ?_⟩
  · rw [cb1, List.map_map]
    rfl
  · rw [ri1, List.foldl_map]
    rfl
  · intro h
    refine nb1 ?_
    rcases h with h | h
    · exact Or.inl h
    · exact Or.inr (by simpa using h)

/-- Claim C1: starting from Idle, a back-to-back sequence of `set`/`delete`
calls (all within one buffer window) yields exactly two backend bulk-write
calls: the first operation is flushed alone immediately and arms the
cooldown timer; no subsequent operation triggers a call of its own; and
when the timer fires, one further call carries the remaining operations
(their accumulated batch and their N-1 callbacks), re-arming the timer. -/
theorem C1_window_bound (encode : β → α) (s : ConnState α) (op1 : SDOp β)
    (rest : List (SDOp β)) (hb : s.batch = none) (ht : s.batchTimeout = false)
    (hr : rest ≠ []) :
    (applySD encode s op1).calls =
      s.calls ++ [⟨[(sdTable op1, [sdItem encode op1])], [sdCb op1]⟩] ∧
    (applySD encode s op1).batchTimeout = true ∧
    (∀ k : Nat, (runSD encode s (op1 :: rest.take k)).calls =
      s.calls ++ [⟨[(sdTable op1, [sdItem encode op1])], [sdCb op1]⟩]) ∧
    (step (runSD encode s (op1 :: rest)) Event.timerFire).calls =
      s.calls ++ [⟨[(sdTable op1, [sdItem encode op1])], [sdCb op1]⟩,
        ⟨riAccum encode [] rest, rest.map sdCb⟩] ∧
    (step (runSD encode s (op1 :: rest)) Event.timerFire).batchTimeout = true := by
  have h1 : applySD encode s op1 =
      { s with calls := s.calls ++
                 [⟨[(sdTable op1, [sdItem encode op1])], [sdCb op1]⟩],
               batchCallbacks := [], batch := none,
               batchTimeout := true } := by
    rw [applySD_eq]
    rw [show step s (Event.enqueue (sdTable op1) (sdItem encode op1) (sdCb op1)) =
        addToBatch s (sdTable op1) (sdItem encode op1) (sdCb op1) from rfl]
    rw [addToBatch_unarmed _ _ _ _ ht]
    simp [RIof, cbsOf, hb, riAdd, upsert, getIndexWithinBatch, setTable, lookupTable]
  have ht1 : (applySD encode s op1).batchTimeout = true := by rw [h1]
  have hwf1 : wfState (applySD encode s op1) := by
    rw [h1]; intro _; rfl
  have hri1 : RIof (applySD encode s op1) = [] := by
    rw [h1]; rfl
  have harm := fun l => runSD_armed encode (applySD encode s op1) l ht1 hwf1
  refine ⟨by rw [h1], ht1, ?_, ?_, ?_⟩
  · intro k
    have := (harm (rest.take k)).1
    rw [show runSD encode s (op1 :: rest.take k) =
        runSD encode (applySD encode s op1) (rest.take k) from rfl, this, h1]
  · obtain ⟨c1, t1, cb1, ri1, nb1⟩ := harm rest
    have hrn : runSD encode s (op1 :: rest) =
        runSD encode (applySD encode s op1) rest := rfl
    rw [hrn]
    cases hsn : (runSD encode (applySD encode s op1) rest).batch with
    | none => exact absurd hsn (nb1 (Or.inr hr))
    | some b =>
      have hbval : b = riAccum encode [] rest := by
        rw [← RIof_some hsn, ri1, hri1]
      rw [show step (runSD encode (applySD encode s op1) rest) Event.timerFire =
          writeBatch (runSD encode (applySD encode s op1) rest) from by
        simp [step, t1]]
      rw [show writeBatch (runSD encode (applySD encode s op1) rest) =
          { (runSD encode (applySD encode s op1) rest) with
            calls := (runSD encode (applySD encode s op1) rest).calls ++
              [⟨b, (runSD encode (applySD encode s op1) rest).batchCallbacks⟩],
            batchCallbacks := [], batch := none, batchTimeout := true } from by
        unfold writeBatch
        rw [hsn]]
    -- calls of result
      rw [show ({ (runSD encode (applySD encode s op1) rest) with
            calls := (runSD encode (applySD encode s op1) rest).calls ++
              [⟨b, (runSD encode (applySD encode s op1) rest).batchCallbacks⟩],
            batchCallbacks := [], batch := none, batchTimeout := true } :
          ConnState α).calls =
          (runSD encode (applySD encode s op1) rest).calls ++
            [⟨b, (runSD encode (applySD encode s op1) rest).batchCallbacks⟩] from rfl]
      rw [c1, cb1, h1, hbval]
      simp
  · obtain ⟨c1, t1, cb1, ri1, nb1⟩ := harm rest
    have hrn : runSD encode s (op1 :: rest) =
        runSD encode (applySD encode s op1) rest := rfl
    rw [hrn]
    cases hsn : (runSD encode (applySD encode s op1) rest).batch with
    | none => exact absurd hsn (nb1 (Or.inr hr))
    | some b =>
      simp [step, t1, writeBatch, hsn]

/-- Witness for C1: three concrete back-to-back calls (two sets and a
delete); the timer-fire flush carries the two remaining operations. -/
theorem C1_window_bound_witness :
    (step (runSD (fun n : Nat => n) initState
        [SDOp.setOp "aaaaaax" 7 0, SDOp.setOp "aaaaaay" 8 1,
         SDOp.delOp "aaaaaax" 2]) Event.timerFire).calls =
      [⟨[("aaaaaa", [Item.putRequest "x" 7])], [0]⟩,
       ⟨[("aaaaaa", [Item.putRequest "y" 8, Item.deleteRequest "x"])], [1, 2]⟩] := by
  have h := (C1_window_bound (fun n : Nat => n) initState
    (SDOp.setOp "aaaaaax" 7 0) [SDOp.setOp "aaaaaay" 8 1, SDOp.delOp "aaaaaax" 2]
    rfl rfl (by simp)).2.2.2.1
  rw [show (runSD (fun n : Nat => n) initState
      [SDOp.setOp "aaaaaax" 7 0, SDOp.setOp "aaaaaay" 8 1,
       SDOp.delOp "aaaaaax" 2]) =
    (runSD (fun n : Nat => n) initState
      (SDOp.setOp "aaaaaax" 7 0 ::
        [SDOp.setOp "aaaaaay" 8 1, SDOp.delOp "aaaaaax" 2])) from rfl, h]
  rfl

/-! ### Helper lemmas: dedup replacement for same-key Puts -/

theorem getIndexWithinBatch_append_match {a x : Item α} {l : List (Item α)}
    (hn : getIndexWithinBatch a l = none) (hm : itemMatches a x = true) :
    getIndexWithinBatch a (l ++ [x]) = some l.length := by
  refine getIndexWithinBatch_intro (List.getElem?_concat_length l x) hm ?_
  intro j hj y hy
  rw [List.getElem?_append_left hj] at hy
  exact getIndexWithinBatch_eq_none.mp hn y (List.getElem?_mem hy)

theorem getIndexWithinBatch_set_match {a b : Item α} {l : List (Item α)} {i : Nat}
    (hs : getIndexWithinBatch a l = some i) (hm : itemMatches a b = true) :
    getIndexWithinBatch a (l.set i b) = some i := by
  obtain ⟨⟨y, hy, hmy⟩, hpre⟩ := getIndexWithinBatch_eq_some hs
  have hlt : i < l.length := (List.getElem?_eq_some.mp hy).1
  refine getIndexWithinBatch_intro (by simp [List.getElem?_set_self', hlt]) hm ?_
  intro j hj x hx
  rw [List.getElem?_set_ne (Nat.ne_of_gt hj)] at hx
  exact hpre j hj x hx

theorem getIndexWithinBatch_congr {a b : Item α} (h : itemMatches a b = true)
    (l : List (Item α)) : getIndexWithinBatch a l = getIndexWithinBatch b l := by
  induction l with
  | nil => rfl
  | cons y ys ih =>
    unfold getIndexWithinBatch
    rw [itemMatches_left_congr h y, ih]

theorem matchCount_congr {a b : Item α} (h : itemMatches a b = true)
    (l : List (Item α)) : matchCount a l = matchCount b l := by
  unfold matchCount
  induction l with
  | nil => rfl
  | cons y ys ih =>
    rw [List.countP_cons, List.countP_cons, ih, itemMatches_left_congr h y]

theorem matchCount_append_single (probe x : Item α) (l : List (Item α)) :
    matchCount probe (l ++ [x]) =
      matchCount probe l + (if itemMatches probe x then 1 else 0) := by
  unfold matchCount
  rw [List.countP_append]
  simp [List.countP_cons]

theorem matchCount_set_of_match {probe b : Item α} {l : List (Item α)} {i : Nat}
    {y : Item α} (hy : l[i]? = some y)
    (hmy : itemMatches probe y = itemMatches probe b) :
    matchCount probe (l.set i b) = matchCount probe l := by
  obtain ⟨hlt, hget⟩ := List.getElem?_eq_some.mp hy
  unfold matchCount
  rw [List.countP_set _ _ _ _ hlt, hget, ← hmy]
  cases hc : itemMatches probe y with
  | false => simp [hc]
  | true =>
    have hb : 0 < List.countP (fun x => itemMatches probe x) l :=
      List.countP_pos_iff.mpr ⟨y, List.getElem?_mem hy, hc⟩
    simp only [hc, if_pos]
    omega

theorem upsert_twice_put (dk : String) (p1 p2 : α) (items : List (Item α))
    (hone : matchCount (Item.putRequest dk p2) items ≤ 1) :
    matchCount (Item.putRequest dk p2)
      (upsert (upsert items (Item.putRequest dk p1)) (Item.putRequest dk p2)) = 1 ∧
    getIndexWithinBatch (Item.putRequest dk p2)
      (upsert (upsert items (Item.putRequest dk p1)) (Item.putRequest dk p2)) =
      getIndexWithinBatch (Item.putRequest dk p1)
        (upsert items (Item.putRequest dk p1)) ∧
    ∃ i, getIndexWithinBatch (Item.putRequest dk p2)
        (upsert (upsert items (Item.putRequest dk p1))
          (Item.putRequest dk p2)) = some i ∧
      (upsert (upsert items (Item.putRequest dk p1))
        (Item.putRequest dk p2))[i]? = some (Item.putRequest dk p2) := by
  have hm21 : itemMatches (Item.putRequest dk p2) (Item.putRequest dk p1) = true := by
    simp [itemMatches]
  have hm11 : itemMatches (Item.putRequest dk p1) (Item.putRequest dk p1) = true := by
    simp [itemMatches]
  have hm22 : itemMatches (Item.putRequest dk p2) (Item.putRequest dk p2) = true := by
    simp [itemMatches]
  cases hidx : getIndexWithinBatch (Item.putRequest dk p2) items with
  | none =>
    have hidx1 : getIndexWithinBatch (Item.putRequest dk p1) items = none := by
      rw [← getIndexWithinBatch_congr hm21 items]
      exact hidx
    have h1 : upsert items (Item.putRequest dk p1) = items ++ [Item.putRequest dk p1] := by
      unfold upsert
      rw [hidx1]
    have hidx2 : getIndexWithinBatch (Item.putRequest dk p2)
        (items ++ [Item.putRequest dk p1]) = some items.length :=
      getIndexWithinBatch_append_match hidx hm21
    have h2 : upsert (items ++ [Item.putRequest dk p1]) (Item.putRequest dk p2) =
        (items ++ [Item.putRequest dk p1]).set items.length (Item.putRequest dk p2) := by
      unfold upsert
      rw [hidx2]
    rw [h1, h2]
    have hset : (items ++ [Item.putRequest dk p1]).set items.length
        (Item.putRequest dk p2) = items ++ [Item.putRequest dk p2] := by
      induction items with
      | nil => rfl
      | cons z zs ih => simp [ih]
    rw [hset]
    refine ⟨?_, ?_, items.length, ?_, List.getElem?_concat_length items _⟩
    · rw [matchCount_append_single, getIndexWithinBatch_none_iff_matchCount_zero.mp hidx,
        hm22]
      rfl
    · rw [getIndexWithinBatch_append_match hidx hm22,
        getIndexWithinBatch_append_match hidx1 hm11]
    · exact getIndexWithinBatch_append_match hidx hm22
  | some i =>
    have hidx1 : getIndexWithinBatch (Item.putRequest dk p1) items = some i := by
      rw [← getIndexWithinBatch_congr hm21 items]
      exact hidx
    obtain ⟨⟨y, hy, hmy⟩, -⟩ := getIndexWithinBatch_eq_some hidx
    have h1 : upsert items (Item.putRequest dk p1) =
        items.set i (Item.putRequest dk p1) := by
      unfold upsert
      rw [hidx1]
    have hidxs1 : getIndexWithinBatch (Item.putRequest dk p2)
        (items.set i (Item.putRequest dk p1)) = some i :=
      getIndexWithinBatch_set_match hidx hm21
    have h2 : upsert (items.set i (Item.putRequest dk p1)) (Item.putRequest dk p2) =
        items.set i (Item.putRequest dk p2) := by
      unfold upsert
      rw [hidxs1]
      show (items.set i (Item.putRequest dk p1)).set i (Item.putRequest dk p2) =
        items.set i (Item.putRequest dk p2)
      rw [List.set_set]
    rw [h1, h2]
    have hlt : i < items.length := (List.getElem?_eq_some.mp hy).1
    refine ⟨?_, ?_, i, ?_, by simp [List.getElem?_set_self', hlt]⟩
    · rw [matchCount_set_of_match hy (by rw [hmy, hm22])]
      have hge := matchCount_pos_of_some hidx
      omega
    · rw [getIndexWithinBatch_set_match hidx hm22,
        getIndexWithinBatch_set_match hidx1 hm11]
    · exact getIndexWithinBatch_set_match hidx hm22

theorem writeBatch_calls_of_some {s : ConnState α} {b : RequestItems α}
    (h : s.batch = some b) :
    (writeBatch s).calls = s.calls ++ [⟨b, s.batchCallbacks⟩] := by
  unfold writeBatch
  rw [h]

/-- Claim C2: two `set` calls for the same composite key enqueued in the
same accumulation window (timer armed, so neither triggers a flush) leave
exactly one Put for that key in the pending batch, carrying the later
call's (encoded) payload, located at the very index where the first call's
Put sat; both callbacks are registered, ride on the single flush that
closes the window, and are each invoked with that flush's shared outcome. -/
theorem C2_dedup_last_write (encode : β → α) (s : ConnState α) (id : String)
    (v1 v2 : β) (cb1 cb2 : Nat) (ht : s.batchTimeout = true) (hwf : wfState s)
    (hone : matchCount (Item.putRequest (getId id) (encode v2))
      (itemsOf s (getTableName id)) ≤ 1) :
    (connSet encode (connSet encode s id v1 cb1) id v2 cb2).calls = s.calls ∧
    (connSet encode (connSet encode s id v1 cb1) id v2 cb2).batchTimeout = true ∧
    (connSet encode (connSet encode s id v1 cb1) id v2 cb2).batchCallbacks =
      s.batchCallbacks ++ [cb1, cb2] ∧
    matchCount (Item.putRequest (getId id) (encode v2))
      (itemsOf (connSet encode (connSet encode s id v1 cb1) id v2 cb2)
        (getTableName id)) = 1 ∧
    getIndexWithinBatch (Item.putRequest (getId id) (encode v2))
      (itemsOf (connSet encode (connSet encode s id v1 cb1) id v2 cb2)
        (getTableName id)) =
      getIndexWithinBatch (Item.putRequest (getId id) (encode v1))
        (itemsOf (connSet encode s id v1 cb1) (getTableName id)) ∧
    (∃ i, getIndexWithinBatch (Item.putRequest (getId id) (encode v2))
        (itemsOf (connSet encode (connSet encode s id v1 cb1) id v2 cb2)
          (getTableName id)) = some i ∧
      (itemsOf (connSet encode (connSet encode s id v1 cb1) id v2 cb2)
        (getTableName id))[i]? = some (Item.putRequest (getId id) (encode v2))) ∧
    (step (connSet encode (connSet encode s id v1 cb1) id v2 cb2)
        Event.timerFire).calls =
      s.calls ++ [⟨RIof (connSet encode (connSet encode s id v1 cb1) id v2 cb2),
        s.batchCallbacks ++ [cb1, cb2]⟩] ∧
    (∀ (err : Option String) (data : Option Nat),
      (cb1, err, data) ∈ onBatchWriteComplete
        (s.batchCallbacks ++ [cb1, cb2]) err data ∧
      (cb2, err, data) ∈ onBatchWriteComplete
        (s.batchCallbacks ++ [cb1, cb2]) err data) := by
  have e1 : connSet encode s id v1 cb1 =
      addToBatch s (getTableName id)
        (Item.putRequest (getId id) (encode v1)) cb1 := rfl
  have a1 := addToBatch_armed s (getTableName id)
    (Item.putRequest (getId id) (encode v1)) cb1 ht
  have ht1 : (connSet encode s id v1 cb1).batchTimeout = true := by
    rw [e1, a1]; exact ht
  have hwf1 : wfState (connSet encode s id v1 cb1) := by
    rw [e1, a1]; intro hc; simp at hc
  have hcb1 : (connSet encode s id v1 cb1).batchCallbacks =
      s.batchCallbacks ++ [cb1] := by
    rw [e1, a1]
    show cbsOf s ++ [cb1] = s.batchCallbacks ++ [cb1]
    rw [cbsOf_eq s hwf]
  have hcalls1 : (connSet encode s id v1 cb1).calls = s.calls := by
    rw [e1, a1]
  have hitems1 : itemsOf (connSet encode s id v1 cb1) (getTableName id) =
      upsert (itemsOf s (getTableName id))
        (Item.putRequest (getId id) (encode v1)) := by
    rw [e1, itemsOf_addToBatch_armed s (getTableName id) (getTableName id)
      (Item.putRequest (getId id) (encode v1)) cb1 ht, if_pos rfl]
  have e2 : connSet encode (connSet encode s id v1 cb1) id v2 cb2 =
      addToBatch (connSet encode s id v1 cb1) (getTableName id)
        (Item.putRequest (getId id) (encode v2)) cb2 := rfl
  have a2 := addToBatch_armed (connSet encode s id v1 cb1) (getTableName id)
    (Item.putRequest (getId id) (encode v2)) cb2 ht1
  have ht2 : (connSet encode (connSet encode s id v1 cb1) id v2 cb2).batchTimeout =
      true := by
    rw [e2, a2]; exact ht1
  have hcb2 : (connSet encode (connSet encode s id v1 cb1) id v2
      cb2).batchCallbacks = s.batchCallbacks ++ [cb1, cb2] := by
    rw [e2, a2]
    show cbsOf (connSet encode s id v1 cb1) ++ [cb2] =
      s.batchCallbacks ++ [cb1, cb2]
    rw [cbsOf_eq _ hwf1, hcb1, List.append_assoc]
    rfl
  have hcalls2 : (connSet encode (connSet encode s id v1 cb1) id v2 cb2).calls =
      s.calls := by
    rw [e2, a2]; exact hcalls1
  have hitems2 : itemsOf (connSet encode (connSet encode s id v1 cb1) id v2 cb2)
      (getTableName id) =
      upsert (upsert (itemsOf s (getTableName id))
        (Item.putRequest (getId id) (encode v1)))
        (Item.putRequest (getId id) (encode v2)) := by
    rw [e2, itemsOf_addToBatch_armed (connSet encode s id v1 cb1) (getTableName id)
      (getTableName id) (Item.putRequest (getId id) (encode v2)) cb2 ht1,
      if_pos rfl, hitems1]
  obtain ⟨hc1, hc2, hc3⟩ := upsert_twice_put (getId id) (encode v1) (encode v2)
    (itemsOf s (getTableName id)) hone
  have hbs2 : (connSet encode (connSet encode s id v1 cb1) id v2 cb2).batch =
      some (riAdd (RIof (connSet encode s id v1 cb1)) (getTableName id)
        (Item.putRequest (getId id) (encode v2))) := by
    rw [e2, a2]
  refine ⟨hcalls2, ht2, hcb2, ?_, ?_, ?_, ?_, ?_⟩
  · rw [hitems2]; exact hc1
  · rw [hitems2, hitems1]; exact hc2
  · rw [hitems2]; exact hc3
  · have hfire : step (connSet encode (connSet encode s id v1 cb1) id v2 cb2)
        Event.timerFire =
        writeBatch (connSet encode (connSet encode s id v1 cb1) id v2 cb2) := by
      simp [step, ht2]
    rw [hfire, writeBatch_calls_of_some hbs2, hcalls2, hcb2, RIof_some hbs2]
  · intro err data
    constructor
    · unfold onBatchWriteComplete
      exact List.mem_map.mpr ⟨cb1, by simp, rfl⟩
    · unfold onBatchWriteComplete
      exact List.mem_map.mpr ⟨cb2, by simp, rfl⟩

/-- Witness for C2 at a concrete armed-empty window: two sets of key
"aaaaaax"; both callbacks registered, one Put left, both informed. -/
theorem C2_dedup_last_write_witness :
    (connSet (fun n : Nat => n) (connSet (fun n : Nat => n)
      (⟨none, [], true, []⟩ : ConnState Nat) "aaaaaax" 1 0)
      "aaaaaax" 2 1).batchCallbacks = [0, 1] ∧
    matchCount (Item.putRequest (getId "aaaaaax") 2)
      (itemsOf (connSet (fun n : Nat => n) (connSet (fun n : Nat => n)
        (⟨none, [], true, []⟩ : ConnState Nat) "aaaaaax" 1 0) "aaaaaax" 2 1)
        (getTableName "aaaaaax")) = 1 ∧
    (1, some "boom", (none : Option Nat)) ∈
      onBatchWriteComplete [0, 1] (some "boom") (none : Option Nat) := by
  have h := C2_dedup_last_write (fun n : Nat => n)
    (⟨none, [], true, []⟩ : ConnState Nat) "aaaaaax" 1 2 0 1 rfl (fun _ => rfl)
    (by simp [itemsOf, RIof, lookupTable, matchCount])
  exact ⟨h.2.2.1, h.2.2.2.1, (h.2.2.2.2.2.2.2 (some "boom") none).2⟩

/-- Claim C3: the dedup match is keyed on operation kind plus local-id —
a Put's scan index always lands on a Put with the same `ds_id` and a
Delete's on a Delete with the same `ds_id`; consequently a `set` followed
by a `delete` of the same composite key within one window (with neither
kind already pending for that key) leaves BOTH entries in the pending
batch, the Put and, after it, the Delete. -/
theorem C3_kind_keyed_match (encode : β → α) (s : ConnState α) (id : String)
    (v : β) (cb1 cb2 : Nat) (ht : s.batchTimeout = true)
    (hput : matchCount (Item.putRequest (getId id) (encode v))
      (itemsOf s (getTableName id)) = 0)
    (hdel : matchCount (Item.deleteRequest (getId id))
      (itemsOf s (getTableName id)) = 0) :
    itemsOf (connDelete (connSet encode s id v cb1) id cb2) (getTableName id) =
      itemsOf s (getTableName id) ++
        [Item.putRequest (getId id) (encode v),
         Item.deleteRequest (getId id)] ∧
    matchCount (Item.putRequest (getId id) (encode v))
      (itemsOf (connDelete (connSet encode s id v cb1) id cb2)
        (getTableName id)) = 1 ∧
    matchCount (Item.deleteRequest (getId id))
      (itemsOf (connDelete (connSet encode s id v cb1) id cb2)
        (getTableName id)) = 1 ∧
    (∀ (items : List (Item α)) (k : String) (p : α) (i : Nat),
      getIndexWithinBatch (Item.putRequest k p) items = some i →
      ∃ p2, items[i]? = some (Item.putRequest k p2)) ∧
    (∀ (items : List (Item α)) (k : String) (i : Nat),
      getIndexWithinBatch (Item.deleteRequest k) items = some i →
      items[i]? = some (Item.deleteRequest k)) := by
  have e1 : connSet encode s id v cb1 =
      addToBatch s (getTableName id)
        (Item.putRequest (getId id) (encode v)) cb1 := rfl
  have a1 := addToBatch_armed s (getTableName id)
    (Item.putRequest (getId id) (encode v)) cb1 ht
  have ht1 : (connSet encode s id v cb1).batchTimeout = true := by
    rw [e1, a1]; exact ht
  have hnone1 : getIndexWithinBatch (Item.putRequest (getId id) (encode v))
      (itemsOf s (getTableName id)) = none :=
    getIndexWithinBatch_none_iff_matchCount_zero.mpr hput
  have hitems1 : itemsOf (connSet encode s id v cb1) (getTableName id) =
      itemsOf s (getTableName id) ++
        [Item.putRequest (getId id) (encode v)] := by
    rw [e1, itemsOf_addToBatch_armed s (getTableName id) (getTableName id)
      (Item.putRequest (getId id) (encode v)) cb1 ht, if_pos rfl]
    unfold upsert
    rw [hnone1]
  have hdelnone : getIndexWithinBatch (Item.deleteRequest (getId id))
      (itemsOf s (getTableName id) ++
        [Item.putRequest (getId id) (encode v)]) = none := by
    rw [getIndexWithinBatch_eq_none]
    intro x hx
    rcases List.mem_append.mp hx with hx | hx
    · exact matchCount_eq_zero.mp hdel x hx
    · rw [List.mem_singleton] at hx
      subst hx
      rfl
  have e2 : connDelete (connSet encode s id v cb1) id cb2 =
      addToBatch (connSet encode s id v cb1) (getTableName id)
        (Item.deleteRequest (getId id)) cb2 := rfl
  have hitems2 : itemsOf (connDelete (connSet encode s id v cb1) id cb2)
      (getTableName id) =
      itemsOf s (getTableName id) ++
        [Item.putRequest (getId id) (encode v),
         Item.deleteRequest (getId id)] := by
    rw [e2, itemsOf_addToBatch_armed (connSet encode s id v cb1)
      (getTableName id) (getTableName id) (Item.deleteRequest (getId id))
      cb2 ht1, if_pos rfl, hitems1]
    unfold upsert
    rw [hdelnone]
    simp
  refine ⟨hitems2, ?_, ?_, ?_, ?_⟩
  · rw [hitems2,
      show itemsOf s (getTableName id) ++
          [Item.putRequest (getId id) (encode v),
           Item.deleteRequest (getId id)] =
        (itemsOf s (getTableName id) ++
          [Item.putRequest (getId id) (encode v)]) ++
          [Item.deleteRequest (getId id)] from by simp,
      matchCount_append_single, matchCount_append_single, hput]
    simp [itemMatches]
  · rw [hitems2,
      show itemsOf s (getTableName id) ++
          [Item.putRequest (getId id) (encode v),
           Item.deleteRequest (getId id)] =
        (itemsOf s (getTableName id) ++
          [Item.putRequest (getId id) (encode v)]) ++
          [Item.deleteRequest (getId id)] from by simp,
      matchCount_append_single, matchCount_append_single, hdel]
    simp [itemMatches]
  · intro items k p i hidx
    obtain ⟨⟨y, hy, hmy⟩, -⟩ := getIndexWithinBatch_eq_some hidx
    cases y with
    | putRequest k2 p2 =>
      have hk : k = k2 := by simpa [itemMatches] using hmy
      subst hk
      exact ⟨p2, hy⟩
    | deleteRequest k2 => simp [itemMatches] at hmy
  · intro items k i hidx
    obtain ⟨⟨y, hy, hmy⟩, -⟩ := getIndexWithinBatch_eq_some hidx
    cases y with
    | putRequest k2 p2 => simp [itemMatches] at hmy
    | deleteRequest k2 =>
      have hk : k = k2 := by simpa [itemMatches] using hmy
      subst hk
      exact hy

/-- Witness for C3: concrete put-then-delete of key "aaaaaax" in an armed
empty window keeps both entries. -/
theorem C3_kind_keyed_match_witness :
    itemsOf (connDelete (connSet (fun n : Nat => n)
      (⟨none, [], true, []⟩ : ConnState Nat) "aaaaaax" 7 0) "aaaaaax" 1)
      (getTableName "aaaaaax") =
      [Item.putRequest (getId "aaaaaax") 7,
       Item.deleteRequest (getId "aaaaaax")] := by
  have h := (C3_kind_keyed_match (fun n : Nat => n)
    (⟨none, [], true, []⟩ : ConnState Nat) "aaaaaax" 7 0 1 rfl
    (by simp [itemsOf, RIof, lookupTable, matchCount])
    (by simp [itemsOf, RIof, lookupTable, matchCount])).1
  rw [h]
  rfl
